import Mathlib

/-!
# Verification of the quortex-mcp server core logic

A shallow embedding of the core logic of `server.py`:

* the OpenAPI spec merger `merge_specs`,
* the `info` finalization performed by `create_mcp_server`,
* the route-classification rule list `route_maps` together with the
  first-match-wins evaluation replicated in `tests/test_server.py`,
* the token manager `QuortexAuth.async_auth_flow`, and
* the `org`-parameter redaction registration loop of `create_mcp_server`.

Python dictionaries are modelled as association lists with unique keys kept
in insertion order; `dlookup` is dictionary lookup and `dinsert` is
dictionary assignment (`d[k] = v`): it updates the first entry with the key
in place, otherwise appends at the end, exactly as CPython dicts behave.
Operations that can raise in Python return `Option`.
-/

namespace QuortexMCP

/-- YAML/JSON-like values, the payloads of an OpenAPI document. -/
inductive Json where
  | null : Json
  | bool : Bool → Json
  | num : Int → Json
  | str : String → Json
  | arr : List Json → Json
  | obj : List (String × Json) → Json

/-- Dictionary lookup on an association list (first occurrence wins,
as in a Python dict, whose keys are unique). -/
def dlookup {α : Type} (k : String) : List (String × α) → Option α
  | [] => none
  | (k', v) :: rest => if k' = k then some v else dlookup k rest

/-- Dictionary assignment `d[k] = v`: replace the first entry carrying `k`
in place, otherwise append the new entry at the end (CPython dict update
semantics, which preserve insertion order). -/
def dinsert {α : Type} (k : String) (v : α) : List (String × α) → List (String × α)
  | [] => [(k, v)]
  | (k', v') :: rest => if k' = k then (k, v) :: rest else (k', v') :: dinsert k v rest

/-- A top-level OpenAPI document: a dictionary from string keys to values. -/
abbrev Doc := List (String × Json)

@[simp] theorem dlookup_nil {α : Type} (k : String) : dlookup k ([] : List (String × α)) = none := rfl

theorem dlookup_cons {α : Type} (k k' : String) (v : α) (rest : List (String × α)) :
    dlookup k ((k', v) :: rest) = if k' = k then some v else dlookup k rest := rfl

@[simp] theorem dlookup_dinsert_self {α : Type} (k : String) (v : α) (l : List (String × α)) :
    dlookup k (dinsert k v l) = some v := by
  induction l with
  | nil => simp [dinsert, dlookup]
  | cons hd tl ih =>
    obtain ⟨k', v'⟩ := hd
    by_cases h : k' = k
    · simp [dinsert, dlookup, h]
    · simp [dinsert, dlookup, h, ih]

theorem dlookup_dinsert_ne {α : Type} {k k' : String} (hne : k' ≠ k) (v : α)
    (l : List (String × α)) : dlookup k (dinsert k' v l) = dlookup k l := by
  induction l with
  | nil => simp [dinsert, dlookup, hne]
  | cons hd tl ih =>
    obtain ⟨k'', v''⟩ := hd
    by_cases h : k'' = k'
    · subst h
      simp [dinsert, dlookup, hne]
    · by_cases h2 : k'' = k
      · simp [dinsert, dlookup, h, h2, Ne.symm hne]
      · simp [dinsert, dlookup, h, h2, ih]

/-- Re-assigning the value a key already holds leaves the dictionary
unchanged. -/
theorem dinsert_self_eq {α : Type} {k : String} {v : α} {l : List (String × α)}
    (h : dlookup k l = some v) : dinsert k v l = l := by
  induction l with
  | nil => simp [dlookup] at h
  | cons hd tl ih =>
    obtain ⟨k', v'⟩ := hd
    by_cases hk : k' = k
    · subst hk
      simp [dlookup] at h
      simp [dinsert, h]
    · simp [dlookup, hk] at h
      simp [dinsert, hk, ih h]

/-- Two successive assignments to the same key collapse to the last one. -/
theorem dinsert_dinsert_same {α : Type} (k : String) (v v' : α) (l : List (String × α)) :
    dinsert k v' (dinsert k v l) = dinsert k v' l := by
  induction l with
  | nil => simp [dinsert]
  | cons hd tl ih =>
    obtain ⟨k'', v''⟩ := hd
    by_cases h : k'' = k
    · simp [dinsert, h]
    · simp [dinsert, h, ih]

theorem dlookup_append {α : Type} (k : String) (l₁ l₂ : List (String × α)) :
    dlookup k (l₁ ++ l₂) = (dlookup k l₁).orElse (fun _ => dlookup k l₂) := by
  induction l₁ with
  | nil => simp [dlookup, Option.orElse]
  | cons hd tl ih =>
    obtain ⟨k', v⟩ := hd
    by_cases h : k' = k
    · simp [dlookup, h, Option.orElse]
    · simp [dlookup, h, ih]

/-- The keys of an association list, in order. -/
def dkeys {α : Type} (l : List (String × α)) : List String := l.map Prod.fst

@[simp] theorem dkeys_nil {α : Type} : dkeys ([] : List (String × α)) = [] := rfl

@[simp] theorem dkeys_cons {α : Type} (k : String) (v : α) (tl : List (String × α)) :
    dkeys ((k, v) :: tl) = k :: dkeys tl := rfl

theorem dlookup_eq_none_of_not_mem_dkeys {α : Type} {k : String} {l : List (String × α)}
    (h : k ∉ dkeys l) : dlookup k l = none := by
  induction l with
  | nil => rfl
  | cons hd tl ih =>
    obtain ⟨k', v⟩ := hd
    rw [dkeys_cons, List.mem_cons] at h
    push_neg at h
    simp [dlookup, Ne.symm h.1, ih h.2]

/-- Lookup returning the LAST occurrence of a key (what a left-to-right
sequence of dictionary assignments from the list produces). -/
def lastLookup {α : Type} (k : String) : List (String × α) → Option α
  | [] => none
  | (k', v) :: rest =>
      match lastLookup k rest with
      | some v' => some v'
      | none => if k' = k then some v else none

theorem lastLookup_eq_none_of_not_mem_dkeys {α : Type} {k : String} {l : List (String × α)}
    (h : k ∉ dkeys l) : lastLookup k l = none := by
  induction l with
  | nil => rfl
  | cons hd tl ih =>
    obtain ⟨k', v⟩ := hd
    rw [dkeys_cons, List.mem_cons] at h
    push_neg at h
    simp [lastLookup, ih h.2, Ne.symm h.1]

/-- On a list with pairwise-distinct keys (a real dict), the last and the
first occurrence of a key agree. -/
theorem lastLookup_eq_dlookup {α : Type} {l : List (String × α)}
    (hnd : (dkeys l).Nodup) (k : String) : lastLookup k l = dlookup k l := by
  induction l with
  | nil => rfl
  | cons hd tl ih =>
    obtain ⟨k', v⟩ := hd
    rw [dkeys_cons, List.nodup_cons] at hnd
    by_cases h : k' = k
    · subst h
      have : lastLookup k' tl = none :=
        lastLookup_eq_none_of_not_mem_dkeys hnd.1
      simp [lastLookup, dlookup, this]
    · rw [lastLookup, dlookup, if_neg h, ih hnd.2]
      cases dlookup k tl <;> simp [h]

/-- Lookup after a left fold of dictionary assignments: the last occurrence
in the folded list wins, otherwise the initial dictionary is consulted. -/
theorem dlookup_foldl_dinsert {α : Type} (l : List (String × α)) (init : List (String × α))
    (k : String) :
    dlookup k (l.foldl (fun acc kv => dinsert kv.1 kv.2 acc) init) =
      (lastLookup k l).orElse (fun _ => dlookup k init) := by
  induction l generalizing init with
  | nil => simp [lastLookup, Option.orElse]
  | cons hd tl ih =>
    obtain ⟨k', v⟩ := hd
    simp only [List.foldl_cons, ih]
    by_cases h : k' = k
    · subst h
      cases htl : lastLookup k' tl with
      | some w => simp [lastLookup, htl, Option.orElse]
      | none => simp [lastLookup, htl, Option.orElse]
    · cases htl : lastLookup k tl with
      | some w => simp [lastLookup, htl, Option.orElse]
      | none => simp [lastLookup, htl, Option.orElse, h, dlookup_dinsert_ne h]

/-!
## The spec merger (`merge_specs`, server.py lines 68-101)

`merge_specs(base_spec, new_spec)` returns `new_spec.copy()` when the
accumulator is falsy (the empty dict); otherwise it copies the accumulator
and then

* for each `(path, methods)` in `new_spec['paths']`, assigns
  `merged['paths'][path] = methods` (overwriting on collision), after
  initializing `merged['paths']` to `{}` when absent;
* for each `(component_type, items)` in `new_spec['components']`, after
  initializing `merged['components']` and the per-type map when absent,
  assigns each `(name, schema)` of `items` only when `name` is not already
  present (keeping the existing version on collision).

Python steps that would raise on non-dictionary values (`.items()` on a
non-dict, item assignment into a non-dict) are modelled as `none`.
-/

/-- One iteration per entry of `new_spec['paths'].items()`:
`merged['paths'][path] = methods`. Fails when `merged['paths']` is not a
dictionary (Python raises a `TypeError` on the item assignment). -/
def setPathsLoop (acc : Doc) : List (String × Json) → Option Doc
  | [] => some acc
  | (path, methods) :: rest =>
      match dlookup "paths" acc with
      | some (Json.obj pl) =>
          setPathsLoop (dinsert "paths" (Json.obj (dinsert path methods pl)) acc) rest
      | _ => none

/-- The `paths` phase of `merge_specs`: runs only when `'paths' in new_spec`;
initializes `merged['paths'] = {}` when the key is absent; fails when
`new_spec['paths']` is not a dictionary (`.items()` raises). -/
def mergePaths (base new : Doc) : Option Doc :=
  match dlookup "paths" new with
  | none => some base
  | some (Json.obj newPaths) =>
      let base1 := if (dlookup "paths" base).isSome then base
                   else dinsert "paths" (Json.obj []) base
      setPathsLoop base1 newPaths
  | some _ => none

/-- The conditional insertion of one component `(name, schema)` into a
per-type map: kept out when the name already exists (the existing version
wins), inserted otherwise. -/
def compInsert (m : List (String × Json)) (kv : String × Json) : List (String × Json) :=
  if (dlookup kv.1 m).isSome then m else dinsert kv.1 kv.2 m

/-- The inner `for name, schema in items.items()` loop folded over a
per-type component map. -/
def compMergeCt (ctMap : List (String × Json)) (itemsL : List (String × Json)) :
    List (String × Json) :=
  itemsL.foldl compInsert ctMap

/-- One iteration per entry of `new_spec['components'].items()`: initialize
`merged['components'][component_type]` to `{}` when absent, then run the
inner name loop. Fails when `merged['components']`, the per-type map, or
`items` is not a dictionary. -/
def compStep (acc : Doc) (entry : String × Json) : Option Doc :=
  match entry.2, dlookup "components" acc with
  | Json.obj itemsL, some (Json.obj compsL) =>
      let compsL1 := if (dlookup entry.1 compsL).isSome then compsL
                     else dinsert entry.1 (Json.obj []) compsL
      match dlookup entry.1 compsL1 with
      | some (Json.obj ctMap) =>
          some (dinsert "components"
            (Json.obj (dinsert entry.1 (Json.obj (compMergeCt ctMap itemsL)) compsL1)) acc)
      | _ => none
  | _, _ => none

/-- The `for component_type, items in new_spec['components'].items()` loop. -/
def compLoop (acc : Doc) : List (String × Json) → Option Doc
  | [] => some acc
  | entry :: rest =>
      match compStep acc entry with
      | some acc1 => compLoop acc1 rest
      | none => none

/-- The `components` phase of `merge_specs`: runs only when
`'components' in new_spec`; initializes `merged['components'] = {}` when the
key is absent; fails when `new_spec['components']` is not a dictionary. -/
def mergeComponents (base new : Doc) : Option Doc :=
  match dlookup "components" new with
  | none => some base
  | some (Json.obj newComps) =>
      let base1 := if (dlookup "components" base).isSome then base
                   else dinsert "components" (Json.obj []) base
      compLoop base1 newComps
  | some _ => none

/-- `merge_specs(base_spec, new_spec)` (server.py lines 68-101). An empty
(falsy) accumulator short-circuits to a copy of `new_spec`; otherwise the
copy of the accumulator goes through the `paths` phase and then the
`components` phase. -/
def merge_specs (base_spec new_spec : Doc) : Option Doc :=
  if base_spec.isEmpty then some new_spec
  else
    match mergePaths base_spec new_spec with
    | some m1 => mergeComponents m1 new_spec
    | none => none

/-!
## The `info` finalization done by the caller (`create_mcp_server`,
server.py lines 129-134)

After folding all documents, `create_mcp_server` inserts a default `info`
when absent and then unconditionally overwrites `info['title']` and
`info['description']`. Fails when `merged_spec['info']` is not a dictionary
(the item assignment raises). -/

def unifiedTitle : Json := Json.str "Quortex Unified API (MCP)"

def unifiedDescription : Json := Json.str "Unified MCP server for Quortex.io services"

def defaultInfo : Json :=
  Json.obj [("title", Json.str "Quortex MCP"), ("version", Json.str "1.0.0")]

def finalize_info (merged_spec : Doc) : Option Doc :=
  let spec1 := if (dlookup "info" merged_spec).isSome then merged_spec
               else dinsert "info" defaultInfo merged_spec
  match dlookup "info" spec1 with
  | some (Json.obj info) =>
      some (dinsert "info"
        (Json.obj (dinsert "description" unifiedDescription (dinsert "title" unifiedTitle info)))
        spec1)
  | _ => none

/-!
## Lemmas about the merge phases
-/

theorem setPathsLoop_preserve {l : List (String × Json)} {acc r : Doc}
    (h : setPathsLoop acc l = some r) {k : String} (hk : k ≠ "paths") :
    dlookup k r = dlookup k acc := by
  induction l generalizing acc with
  | nil =>
    simp only [setPathsLoop] at h
    cases h
    rfl
  | cons hd tl ih =>
    obtain ⟨p, m⟩ := hd
    simp only [setPathsLoop] at h
    split at h
    · rw [ih h, dlookup_dinsert_ne (Ne.symm hk)]
    · exact absurd h (by simp)

/-- When the accumulator holds a dictionary at `'paths'`, the path loop
succeeds and amounts to folding dictionary assignments over it. -/
theorem setPathsLoop_spec (l : List (String × Json)) (acc : Doc) (pl : List (String × Json))
    (h : dlookup "paths" acc = some (Json.obj pl)) :
    setPathsLoop acc l =
      some (dinsert "paths" (Json.obj (l.foldl (fun m kv => dinsert kv.1 kv.2 m) pl)) acc) := by
  induction l generalizing acc pl with
  | nil => simp [setPathsLoop, dinsert_self_eq h]
  | cons hd tl ih =>
    obtain ⟨p, m⟩ := hd
    have step := ih (dinsert "paths" (Json.obj (dinsert p m pl)) acc) (dinsert p m pl)
      (dlookup_dinsert_self _ _ _)
    simp only [setPathsLoop, h, step, List.foldl_cons]
    rw [dinsert_dinsert_same]

theorem compStep_preserve {acc r : Doc} {e : String × Json}
    (h : compStep acc e = some r) {k : String} (hk : k ≠ "components") :
    dlookup k r = dlookup k acc := by
  obtain ⟨ct, items⟩ := e
  simp only [compStep] at h
  split at h
  · split at h
    · cases h
      rw [dlookup_dinsert_ne (Ne.symm hk)]
    · exact absurd h (by simp)
  · exact absurd h (by simp)

theorem compLoop_preserve {l : List (String × Json)} {acc r : Doc}
    (h : compLoop acc l = some r) {k : String} (hk : k ≠ "components") :
    dlookup k r = dlookup k acc := by
  induction l generalizing acc with
  | nil =>
    simp only [compLoop] at h
    cases h
    rfl
  | cons hd tl ih =>
    simp only [compLoop] at h
    split at h
    · next acc1 hstep => rw [ih h, compStep_preserve hstep hk]
    · exact absurd h (by simp)

theorem isEmpty_false_of_dlookup {α : Type} {l : List (String × α)} {k : String} {v : α}
    (h : dlookup k l = some v) : l.isEmpty = false := by
  cases l with
  | nil => simp [dlookup] at h
  | cons hd tl => rfl

theorem mergePaths_preserve {base new m1 : Doc} (h : mergePaths base new = some m1)
    {k : String} (hk : k ≠ "paths") : dlookup k m1 = dlookup k base := by
  simp only [mergePaths] at h
  split at h
  · cases h
    rfl
  · rw [setPathsLoop_preserve h hk]
    split
    · rfl
    · rw [dlookup_dinsert_ne (Ne.symm hk)]
  · exact absurd h (by simp)

/-- When both documents hold a dictionary at `'paths'`, the paths phase
assigns every incoming `(path, methods)` over the accumulator's map. -/
theorem mergePaths_spec {base new : Doc} {basePaths newPaths : List (String × Json)}
    (hbase : dlookup "paths" base = some (Json.obj basePaths))
    (hnew : dlookup "paths" new = some (Json.obj newPaths)) :
    mergePaths base new =
      some (dinsert "paths"
        (Json.obj (newPaths.foldl (fun m kv => dinsert kv.1 kv.2 m) basePaths)) base) := by
  simp only [mergePaths, hnew, hbase, Option.isSome_some, if_true]
  exact setPathsLoop_spec _ _ _ hbase

theorem mergeComponents_preserve {base new m : Doc} (h : mergeComponents base new = some m)
    {k : String} (hk : k ≠ "components") : dlookup k m = dlookup k base := by
  simp only [mergeComponents] at h
  split at h
  · cases h
    rfl
  · rw [compLoop_preserve h hk]
    split
    · rfl
    · rw [dlookup_dinsert_ne (Ne.symm hk)]
  · exact absurd h (by simp)

/-- A successful merge with a non-empty accumulator decomposes into the
paths phase followed by the components phase. -/
theorem merge_specs_nonempty {A B M : Doc} (hA : A.isEmpty = false)
    (h : merge_specs A B = some M) :
    ∃ m1, mergePaths A B = some m1 ∧ mergeComponents m1 B = some M := by
  rw [merge_specs, hA] at h
  simp only [Bool.false_eq_true, if_false] at h
  split at h
  · exact ⟨_, by assumption, h⟩
  · exact absurd h (by simp)

/-!
## Claim theorems about the merger
-/

/-- C1: Path merge is right-biased. For an accumulator `A` and a next
document `B` whose `paths` dictionaries both contain the pattern `p`
(with `B`'s paths a genuine dict, i.e. distinct keys), a successful
`merge_specs A B` maps `p` to exactly `B`'s entire method-map for `p` —
a full replacement of `A`'s method-map, not a per-method merge. -/
theorem merge_paths_right_biased
    (A B M : Doc) (aPaths bPaths : List (String × Json)) (p : String) (mA mB : Json)
    (hA : dlookup "paths" A = some (Json.obj aPaths))
    (hB : dlookup "paths" B = some (Json.obj bPaths))
    (hpA : dlookup p aPaths = some mA)
    (hpB : dlookup p bPaths = some mB)
    (hnd : (dkeys bPaths).Nodup)
    (hM : merge_specs A B = some M) :
    ∃ mPaths, dlookup "paths" M = some (Json.obj mPaths) ∧ dlookup p mPaths = some mB := by
  obtain ⟨m1, hm1, hm2⟩ := merge_specs_nonempty (isEmpty_false_of_dlookup hA) hM
  rw [mergePaths_spec hA hB] at hm1
  have hMpaths : dlookup "paths" M = dlookup "paths" m1 :=
    mergeComponents_preserve hm2 (by decide)
  cases hm1
  refine ⟨_, hMpaths.trans (dlookup_dinsert_self _ _ _), ?_⟩
  rw [dlookup_foldl_dinsert, lastLookup_eq_dlookup hnd, hpB]
  rfl

/-- Helper for the C1 witness: a tiny concrete collision on path `/x`. -/
theorem merge_paths_right_biased_witness :
    ∃ mPaths,
      dlookup "paths" [("paths", Json.obj [("/x", Json.str "fromB")])] =
        some (Json.obj mPaths) ∧
      dlookup "/x" mPaths = some (Json.str "fromB") :=
  merge_paths_right_biased
    [("paths", Json.obj [("/x", Json.str "fromA")])]
    [("paths", Json.obj [("/x", Json.str "fromB")])]
    [("paths", Json.obj [("/x", Json.str "fromB")])]
    [("/x", Json.str "fromA")] [("/x", Json.str "fromB")]
    "/x" (Json.str "fromA") (Json.str "fromB")
    rfl rfl rfl rfl (by simp) rfl

/-- C8: merging an empty (falsy) accumulator with any document returns that
document itself, and the unconditional `info.title`/`info.description`
overwrite is performed by the caller's finalization step, not by
`merge_specs`. -/
theorem merge_specs_empty_identity (D : Doc) :
    merge_specs [] D = some D ∧
    (∀ info : List (String × Json), dlookup "info" D = some (Json.obj info) →
      finalize_info D =
        some (dinsert "info"
          (Json.obj (dinsert "description" unifiedDescription (dinsert "title" unifiedTitle info)))
          D)) := by
  refine ⟨rfl, ?_⟩
  intro info hinfo
  simp only [finalize_info, hinfo, Option.isSome_some, if_true]

/-- Witness for C8 on a one-key document carrying an `info` dictionary. -/
theorem merge_specs_empty_identity_witness :
    merge_specs [] [("info", Json.obj [("title", Json.str "t")])] =
      some [("info", Json.obj [("title", Json.str "t")])] ∧
    finalize_info [("info", Json.obj [("title", Json.str "t")])] =
      some (dinsert "info"
        (Json.obj (dinsert "description" unifiedDescription
          (dinsert "title" unifiedTitle [("title", Json.str "t")])))
        [("info", Json.obj [("title", Json.str "t")])]) := by
  have h := merge_specs_empty_identity [("info", Json.obj [("title", Json.str "t")])]
  exact ⟨h.1, h.2 [("title", Json.str "t")] rfl⟩

/-- C9 counterexample: for a NON-empty accumulator, a top-level key present
only in the next document (here `servers`) is NOT added to the merge
result, contradicting the claim that such keys are added with `B`'s
value. -/
theorem merge_specs_toplevel_counterexample :
    merge_specs [("info", Json.str "x")] [("servers", Json.str "y")] =
      some [("info", Json.str "x")] ∧
    dlookup "servers" [("info", Json.str "x")] = none := by
  exact ⟨rfl, rfl⟩

/-- C9 (amended): for a non-empty accumulator `A`, every top-level key of a
successful merge result other than `paths` and `components` has exactly
`A`'s value — in particular a key absent from `A` is absent from the
result, so keys present only in `B` are dropped, not added. -/
theorem merge_specs_toplevel_from_accumulator
    (A B M : Doc) (k : String) (hA : A ≠ [])
    (hk1 : k ≠ "paths") (hk2 : k ≠ "components")
    (hM : merge_specs A B = some M) :
    dlookup k M = dlookup k A := by
  have hAe : A.isEmpty = false := by
    cases A with
    | nil => exact absurd rfl hA
    | cons hd tl => rfl
  obtain ⟨m1, hm1, hm2⟩ := merge_specs_nonempty hAe hM
  exact (mergeComponents_preserve hm2 hk2).trans (mergePaths_preserve hm1 hk1)

/-- Witness for the amended C9: the `info` key of the accumulator survives
verbatim and the `servers` key of the next document is dropped. -/
theorem merge_specs_toplevel_from_accumulator_witness :
    dlookup "info" [("info", Json.str "x"), ("extra", Json.str "z")] =
      dlookup "info" [("info", Json.str "x"), ("extra", Json.str "z")] ∧
    dlookup "servers" [("info", Json.str "x"), ("extra", Json.str "z")] =
      dlookup "servers" [("info", Json.str "x"), ("extra", Json.str "z")] := by
  constructor
  · exact merge_specs_toplevel_from_accumulator
      [("info", Json.str "x"), ("extra", Json.str "z")] [("servers", Json.str "y")]
      [("info", Json.str "x"), ("extra", Json.str "z")] "info" (by simp) (by simp) (by simp) rfl
  · exact merge_specs_toplevel_from_accumulator
      [("info", Json.str "x"), ("extra", Json.str "z")] [("servers", Json.str "y")]
      [("info", Json.str "x"), ("extra", Json.str "z")] "servers" (by simp) (by simp) (by simp) rfl

/-!
## The token manager (`QuortexAuth.async_auth_flow`, server.py lines 19-62)

State: `self.access_token : Optional[str]` and `self.expiry : float`
(modelled with integer seconds). On each outbound request the flow refreshes
when `not self.access_token or now > self.expiry - 60` — note Python
truthiness: the empty string counts as "no token". The refresh posts to the
token endpoint; the outcome is either an exception raised before the body
is consumed (network error, `raise_for_status` on non-2xx, JSON decode
error) or a parsed body whose `access_token` key may be missing
(`data["access_token"]` then raises `KeyError`) and whose `expires_at` is
optional. `self.access_token` is assigned BEFORE `expires_at` is parsed, so
a `ValueError` from `datetime.fromisoformat` escapes with the token already
replaced. `parseTs` abstracts `datetime.fromisoformat(·).timestamp()`:
`none` models the `ValueError` on an unparseable string.
-/

structure AuthState where
  access_token : Option String
  expiry : Int
deriving DecidableEq

/-- Python truthiness of `self.access_token`: `None` and `""` are falsy. -/
def tokenFalsy : Option String → Bool
  | none => true
  | some t => decide (t = "")

/-- Python string interpolation of the optional token into the header. -/
def pyStr : Option String → String
  | none => "None"
  | some t => t

/-- The parsed JSON body of a token-endpoint response. -/
structure TokenResponse where
  access_token : Option String
  expires_at : Option String
deriving DecidableEq

/-- Outcome of the `POST` to the token endpoint, as seen by the `try`
block: an exception raised before the body is read, or a parsed body. -/
inductive FetchOutcome where
  | netError : FetchOutcome
  | body : TokenResponse → FetchOutcome
deriving DecidableEq

/-- `expires_at_str.replace("Z", "+00:00")` on the character list: the
pattern is the single character `Z`, for which Python's non-overlapping
left-to-right replacement is exactly per-character substitution. -/
def replaceZChars : List Char → List Char
  | [] => []
  | c :: rest =>
      if c = 'Z' then '+' :: '0' :: '0' :: ':' :: '0' :: '0' :: replaceZChars rest
      else c :: replaceZChars rest

/-- `expires_at_str.replace("Z", "+00:00")`. -/
def normalizeZ (s : String) : String := ⟨replaceZChars s.data⟩

/-- One pass of `async_auth_flow`: whether a fetch was performed, and
either the propagated exception (with the auth object left in the carried
state) or the final state plus the `Authorization` header sent. -/
structure FlowResult where
  fetched : Bool
  outcome : Except AuthState (AuthState × String)

/-- `QuortexAuth.async_auth_flow` (server.py lines 30-62), one request.
The refresh branch consumes the fetch outcome; the fast path performs no
fetch and reuses the cached token. `self.access_token = data["access_token"]`
precedes the `expires_at` parse, so a parse failure escapes with the token
already updated but the expiry untouched. -/
def async_auth_flow (parseTs : String → Option Int) (s : AuthState) (now : Int)
    (fetch : FetchOutcome) : FlowResult :=
  if tokenFalsy s.access_token || decide (now > s.expiry - 60) then
    match fetch with
    | .netError => ⟨true, .error s⟩
    | .body data =>
        match data.access_token with
        | none => ⟨true, .error s⟩
        | some tok =>
            match data.expires_at with
            | some es =>
                if es = "" then
                  ⟨true, .ok (⟨some tok, now + 24 * 60 * 60⟩, "Bearer " ++ pyStr (some tok))⟩
                else
                  match parseTs (normalizeZ es) with
                  | some ts => ⟨true, .ok (⟨some tok, ts⟩, "Bearer " ++ pyStr (some tok))⟩
                  | none => ⟨true, .error ⟨some tok, s.expiry⟩⟩
            | none =>
                ⟨true, .ok (⟨some tok, now + 24 * 60 * 60⟩, "Bearer " ++ pyStr (some tok))⟩
  else
    ⟨false, .ok (s, "Bearer " ++ pyStr s.access_token)⟩

/-- The fast path: a cached non-empty token that is not within 60 seconds
of expiry is reused, with no fetch and no state change. -/
theorem auth_flow_no_refresh (parseTs : String → Option Int) {s : AuthState} {tok : String}
    (htok : s.access_token = some tok) (hne : tok ≠ "") {now : Int}
    (hle : now ≤ s.expiry - 60) (fetch : FetchOutcome) :
    async_auth_flow parseTs s now fetch = ⟨false, .ok (s, "Bearer " ++ tok)⟩ := by
  have h1 : tokenFalsy (some tok) = false := by simp [tokenFalsy, hne]
  have h2 : ¬(now > s.expiry - 60) := by omega
  simp [async_auth_flow, htok, h1, h2, pyStr]

/-- C3 counterexample: the claim as stated fails when a successful refresh
returns an EMPTY `access_token`. Starting from no cached token at time 0,
a fetch returning `{"access_token": ""}` succeeds and caches expiry
`now + 86400` — a far-future expiry — yet the next request at time 0,
well before `expiry - 60`, performs a fetch again (Python truthiness:
`not self.access_token` is true for `""`), so the subsequent request does
not reuse the token without re-fetching. -/
theorem auth_flow_reuse_counterexample :
    async_auth_flow (fun _ => none) ⟨none, 0⟩ 0 (.body ⟨some "", none⟩) =
      ⟨true, .ok (⟨some "", 24 * 60 * 60⟩, "Bearer ")⟩ ∧
    (0 : Int) ≤ 24 * 60 * 60 - 60 ∧
    (async_auth_flow (fun _ => none) ⟨some "", 24 * 60 * 60⟩ 0 .netError).fetched = true := by
  refine ⟨?_, by norm_num, ?_⟩ <;> rfl

/-- C3 (amended): a refresh fetch is performed iff the cached token is
absent or empty (Python-falsy) or `now > expiry - 60`; otherwise the
cached token is reused with no fetch and no state change; and after a
successful refresh that stored a NON-EMPTY token, every subsequent request
at a time `≤ expiry - 60` carries that same token with no fetch. -/
theorem auth_flow_refresh_policy (parseTs : String → Option Int) (s : AuthState)
    (now : Int) (fetch : FetchOutcome) :
    (async_auth_flow parseTs s now fetch).fetched =
      (tokenFalsy s.access_token || decide (now > s.expiry - 60)) ∧
    (∀ tok, s.access_token = some tok → tok ≠ "" → now ≤ s.expiry - 60 →
      async_auth_flow parseTs s now fetch = ⟨false, .ok (s, "Bearer " ++ tok)⟩) ∧
    (∀ s2 hdr, (async_auth_flow parseTs s now fetch).fetched = true →
      (async_auth_flow parseTs s now fetch).outcome = .ok (s2, hdr) →
      ∃ tok, s2.access_token = some tok ∧ hdr = "Bearer " ++ tok ∧
        (tok ≠ "" → ∀ now' fetch', now' ≤ s2.expiry - 60 →
          async_auth_flow parseTs s2 now' fetch' = ⟨false, .ok (s2, "Bearer " ++ tok)⟩)) := by
  refine ⟨?_, ?_, ?_⟩
  · by_cases hc : (tokenFalsy s.access_token || decide (now > s.expiry - 60)) = true
    · rw [hc]
      rw [async_auth_flow.eq_def, if_pos hc]
      cases fetch with
      | netError => rfl
      | body data =>
        obtain ⟨tokOpt, esOpt⟩ := data
        cases tokOpt with
        | none => rfl
        | some tok =>
          cases esOpt with
          | none => rfl
          | some es =>
            by_cases he : es = ""
            · simp [he]
            · simp only [he, if_false]
              cases parseTs (normalizeZ es) <;> rfl
    · rw [Bool.not_eq_true] at hc
      rw [hc, async_auth_flow.eq_def]
      simp [hc]
  · intro tok htok hne hle
    exact auth_flow_no_refresh parseTs htok hne hle fetch
  · intro s2 hdr hfetched hok
    by_cases hc : (tokenFalsy s.access_token || decide (now > s.expiry - 60)) = true
    · rw [async_auth_flow.eq_def, if_pos hc] at hok
      cases fetch with
      | netError => exact absurd hok (by simp)
      | body data =>
        obtain ⟨tokOpt, esOpt⟩ := data
        cases tokOpt with
        | none => exact absurd hok (by simp)
        | some tok =>
          refine ⟨tok, ?_⟩
          cases esOpt with
          | none =>
            simp only [pyStr] at hok
            injection hok with hpair
            obtain ⟨h1, h2⟩ := Prod.mk.injEq .. ▸ hpair
            refine ⟨by rw [← h1], by rw [← h2], ?_⟩
            intro hne now' fetch' hle'
            rw [← h1] at hle' ⊢
            exact auth_flow_no_refresh parseTs rfl hne hle' fetch'
          | some es =>
            by_cases he : es = ""
            · simp only [he, if_true, pyStr] at hok
              injection hok with hpair
              obtain ⟨h1, h2⟩ := Prod.mk.injEq .. ▸ hpair
              refine ⟨by rw [← h1], by rw [← h2], ?_⟩
              intro hne now' fetch' hle'
              rw [← h1] at hle' ⊢
              exact auth_flow_no_refresh parseTs rfl hne hle' fetch'
            · simp only [he, if_false] at hok
              cases hp : parseTs (normalizeZ es) with
              | none =>
                rw [hp] at hok
                exact absurd hok (by simp)
              | some ts =>
                rw [hp] at hok
                simp only [pyStr] at hok
                injection hok with hpair
                obtain ⟨h1, h2⟩ := Prod.mk.injEq .. ▸ hpair
                refine ⟨by rw [← h1], by rw [← h2], ?_⟩
                intro hne now' fetch' hle'
                rw [← h1] at hle' ⊢
                exact auth_flow_no_refresh parseTs rfl hne hle' fetch'
    · rw [Bool.not_eq_true] at hc
      have : (async_auth_flow parseTs s now fetch).fetched = false := by
        rw [async_auth_flow.eq_def]
        simp [hc]
      rw [this] at hfetched
      exact absurd hfetched (by simp)

/-- Witness for the amended C3: a full refresh-then-reuse round trip at
concrete times with a concrete token. -/
theorem auth_flow_refresh_policy_witness :
    async_auth_flow (fun _ => some 5000) ⟨some "abc", 5000⟩ 100 .netError =
      ⟨false, .ok (⟨some "abc", 5000⟩, "Bearer abc")⟩ :=
  (auth_flow_refresh_policy (fun _ => some 5000) ⟨some "abc", 5000⟩ 100 .netError).2.1
    "abc" rfl (by decide) (by norm_num)

/-- C4 counterexample: the claim that after ANY credential-fetch failure
the cached state is exactly what it was before is false for an unparseable
`expires_at`. With cached state `(some "old", 1000)` and a refresh at time
1000 returning `{"access_token": "new", "expires_at": <unparseable>}`, the
error propagates but the cached token has already been overwritten with
`"new"` (`self.access_token = data["access_token"]` runs before the
`fromisoformat` call that raises). -/
theorem auth_flow_failure_counterexample :
    async_auth_flow (fun _ => none) ⟨some "old", 1000⟩ 1000
        (.body ⟨some "new", some "garbage"⟩) =
      ⟨true, .error ⟨some "new", 1000⟩⟩ ∧
    (⟨some "new", 1000⟩ : AuthState) ≠ ⟨some "old", 1000⟩ := by
  exact ⟨rfl, by decide⟩

/-- C4 (amended): when a refresh is triggered, every fetch failure
propagates as an error (the request is never attempted). A network error,
non-2xx status, malformed body, or missing `access_token` key leaves the
cached state exactly as before; an unparseable `expires_at` also
propagates, but with the cached token already replaced by the response's
`access_token` while the expiry is unchanged. -/
theorem auth_flow_failure_state (parseTs : String → Option Int) (s : AuthState) (now : Int)
    (href : (tokenFalsy s.access_token || decide (now > s.expiry - 60)) = true) :
    (async_auth_flow parseTs s now .netError = ⟨true, .error s⟩) ∧
    (∀ es, async_auth_flow parseTs s now (.body ⟨none, es⟩) = ⟨true, .error s⟩) ∧
    (∀ tok es, es ≠ "" → parseTs (normalizeZ es) = none →
      async_auth_flow parseTs s now (.body ⟨some tok, some es⟩) =
        ⟨true, .error ⟨some tok, s.expiry⟩⟩) := by
  refine ⟨?_, ?_, ?_⟩
  · rw [async_auth_flow.eq_def, if_pos href]
  · intro es
    rw [async_auth_flow.eq_def, if_pos href]
  · intro tok es he hp
    rw [async_auth_flow.eq_def, if_pos href]
    simp only [he, if_false, hp]

/-- Witness for the amended C4 at a concrete expired cache and each of the
three failure shapes. -/
theorem auth_flow_failure_state_witness :
    (async_auth_flow (fun _ => none) ⟨some "old", 1000⟩ 1000 .netError =
      ⟨true, .error ⟨some "old", 1000⟩⟩) ∧
    (async_auth_flow (fun _ => none) ⟨some "old", 1000⟩ 1000 (.body ⟨none, some "2099"⟩) =
      ⟨true, .error ⟨some "old", 1000⟩⟩) ∧
    (async_auth_flow (fun _ => none) ⟨some "old", 1000⟩ 1000 (.body ⟨some "new", some "bad"⟩) =
      ⟨true, .error ⟨some "new", 1000⟩⟩) := by
  have h := auth_flow_failure_state (fun _ => none) ⟨some "old", 1000⟩ 1000 (by decide)
  exact ⟨h.1, h.2.1 (some "2099"), h.2.2 "new" "bad" (by decide) rfl⟩

/-- C7: on a successful refresh, a present `expires_at` — a non-empty
ISO-8601 string whose `Z`-normalized form (`replace("Z", "+00:00")`)
parses — makes the cached expiry its timestamp; an absent `expires_at`
makes the cached expiry `now + 24*60*60` (86400 seconds). -/
theorem auth_flow_expiry_policy (parseTs : String → Option Int) (s : AuthState) (now : Int)
    (href : (tokenFalsy s.access_token || decide (now > s.expiry - 60)) = true) :
    (∀ tok es ts, es ≠ "" → parseTs (normalizeZ es) = some ts →
      async_auth_flow parseTs s now (.body ⟨some tok, some es⟩) =
        ⟨true, .ok (⟨some tok, ts⟩, "Bearer " ++ tok)⟩) ∧
    (∀ tok, async_auth_flow parseTs s now (.body ⟨some tok, none⟩) =
      ⟨true, .ok (⟨some tok, now + 24 * 60 * 60⟩, "Bearer " ++ tok)⟩) := by
  constructor
  · intro tok es ts he hp
    rw [async_auth_flow.eq_def, if_pos href]
    simp only [he, if_false, hp, pyStr]
  · intro tok
    rw [async_auth_flow.eq_def, if_pos href]
    simp only [pyStr]

/-- Witness for C7: a parseable `expires_at` lands its timestamp in the
cache; an absent one lands `now + 86400`. -/
theorem auth_flow_expiry_policy_witness :
    (async_auth_flow (fun es => if es = "2099-01-01T00:00:00+00:00" then some 4070908800 else none)
        ⟨none, 0⟩ 0 (.body ⟨some "abc", some "2099-01-01T00:00:00Z"⟩) =
      ⟨true, .ok (⟨some "abc", 4070908800⟩, "Bearer abc")⟩) ∧
    (async_auth_flow (fun es => if es = "2099-01-01T00:00:00+00:00" then some 4070908800 else none)
        ⟨none, 0⟩ 0 (.body ⟨some "abc", none⟩) =
      ⟨true, .ok (⟨some "abc", 0 + 24 * 60 * 60⟩, "Bearer abc")⟩) := by
  have h := auth_flow_expiry_policy
    (fun es => if es = "2099-01-01T00:00:00+00:00" then some 4070908800 else none)
    ⟨none, 0⟩ 0 (by decide)
  exact ⟨h.1 "abc" "2099-01-01T00:00:00Z" 4070908800 (by decide) (by decide), h.2 "abc"⟩

/-!
## Route classification (`route_maps`, server.py lines 138-145, evaluated
first-match-wins as replicated in `tests/test_server.py` lines 71-94)

Rule 1 carries the regex `.*\{.*\}.*`, checked with `re.match` (anchored at
the start, `.` not matching a newline): it matches iff the path contains a
`{` with a later `}` and no newline before that `}`.
-/

inductive MCPType where
  | RESOURCE_TEMPLATE : MCPType
  | RESOURCE : MCPType
  | TOOL : MCPType
deriving DecidableEq

/-- `re` engine step for `.*\}` under no-DOTALL: a `}` reachable without
crossing a newline. -/
def scanClose : List Char → Bool
  | [] => false
  | c :: rest => c == '}' || (c != '\n' && scanClose rest)

/-- `re.match(r".*\{.*\}.*", ·)` on the character list: some `{` reachable
from the start without crossing a newline, followed by a `}` reachable
without crossing a newline (the trailing `.*` constrains nothing since
`re.match` does not anchor the end). -/
def scanOpen : List Char → Bool
  | [] => false
  | c :: rest => (c == '{' && scanClose rest) || (c != '\n' && scanOpen rest)

/-- Whether `re.match(r".*\{.*\}.*", path)` succeeds. -/
def reMatchBraces (path : String) : Bool := scanOpen path.data

/-- A rule of the route map: methods filter, optional path-pattern
predicate, resulting capability kind. -/
structure RouteMap where
  methods : List String
  pattern : Option (String → Bool)
  mcp_type : MCPType

/-- The rule list of `create_mcp_server` (server.py lines 138-145). -/
def route_maps : List RouteMap :=
  [⟨["GET"], some reMatchBraces, MCPType.RESOURCE_TEMPLATE⟩,
   ⟨["GET"], none, MCPType.RESOURCE⟩,
   ⟨["POST", "PUT", "DELETE", "PATCH"], none, MCPType.TOOL⟩]

/-- First-match-wins evaluation of the rule list (the matching loop
replicated in `tests/test_server.py`): skip a rule when the method is not
in its filter or its pattern fails; return the first surviving rule's
kind; `none` when no rule matches. -/
def matchRoute (maps : List RouteMap) (method path : String) : Option MCPType :=
  match maps with
  | [] => none
  | rm :: rest =>
      if rm.methods.contains method then
        match rm.pattern with
        | some pat => if pat path then some rm.mcp_type else matchRoute rest method path
        | none => some rm.mcp_type
      else matchRoute rest method path

/-- Following the claim's words only, for comparison with the code: the
path contains a brace-delimited substring, i.e. a `{` with a later `}`. -/
def hasClose : List Char → Bool
  | [] => false
  | c :: rest => c == '}' || hasClose rest

/-- Claim-side predicate: the path contains `{` followed later by `}`. -/
def hasBraceSub (path : String) : Bool :=
  hasBraceSubChars path.data
where
  hasBraceSubChars : List Char → Bool
    | [] => false
    | c :: rest => (c == '{' && hasClose rest) || hasBraceSubChars rest

/-- C5 counterexample: the path `"\n{}"` contains a brace-delimited
`{...}` substring, yet a GET on it classifies as RESOURCE rather than the
claimed RESOURCE_TEMPLATE, because `.` in `re.match(r".*\{.*\}.*", ·)`
does not cross the newline preceding the braces. -/
theorem route_classification_counterexample :
    hasBraceSub "\n{}" = true ∧
    matchRoute route_maps "GET" "\n{}" = some MCPType.RESOURCE := by
  constructor <;> rfl

/-- The classification predicted by the amended C5, written from its
words: GET with the template regex matching → resource template, other
GET → resource, POST/PUT/DELETE/PATCH → tool, anything else → no match
(runtime default). -/
def claimClassification (method path : String) : Option MCPType :=
  if method = "GET" then
    some (if reMatchBraces path then MCPType.RESOURCE_TEMPLATE else MCPType.RESOURCE)
  else if method ∈ ["POST", "PUT", "DELETE", "PATCH"] then some MCPType.TOOL
  else none

/-- C5 (amended): the rule list, evaluated in order with first match
winning, classifies every GET whose path matches the template regex
(a `{` later followed by `}`, with no newline before that `}`) as
resource-template, every other GET as resource, every POST/PUT/DELETE/PATCH
as tool even when its path matches the template regex, and leaves any
other method to the runtime default. -/
theorem route_classification (method path : String) :
    matchRoute route_maps method path = claimClassification method path := by
  by_cases hg : method = "GET"
  · subst hg
    cases hb : reMatchBraces path <;>
      simp [matchRoute, route_maps, claimClassification, hb]
  · by_cases hp : method = "POST"
    · subst hp
      simp [matchRoute, route_maps, claimClassification]
    · by_cases hu : method = "PUT"
      · subst hu
        simp [matchRoute, route_maps, claimClassification]
      · by_cases hd : method = "DELETE"
        · subst hd
          simp [matchRoute, route_maps, claimClassification]
        · by_cases hpa : method = "PATCH"
          · subst hpa
            simp [matchRoute, route_maps, claimClassification]
          · simp [matchRoute, route_maps, claimClassification, hg, hp, hu, hd, hpa,
              Ne.symm hg, Ne.symm hp, Ne.symm hu, Ne.symm hd, Ne.symm hpa]

/-!
## The parameter redactor (`create_mcp_server`, server.py lines 196-213)

`default_org = os.environ.get("QUORTEX_ORG")`; only `if default_org:` —
when the value is present and non-empty — does the loop run, registering a
`ToolTransformConfig` with `{"org": ArgTransformConfig(hide=True,
default=default_org)}` for each tool whose
`tool.parameters.get("properties", {})` contains `"org"` under Python's
`in`. The effect of a registered transformation (hiding the argument from
the exposed schema and injecting its default into invocations) is applied
by the external protocol runtime; its contract is modelled from the spec
below.
-/

/-- Does the character-list `needle` start `hay`? (helper for Python's
substring containment.) -/
def charsHavePrefix : List Char → List Char → Bool
  | [], _ => true
  | _ :: _, [] => false
  | p :: ps, c :: cs => p == c && charsHavePrefix ps cs

/-- Python substring containment `needle in hay` for strings. -/
def strContains (needle : String) (hay : String) : Bool :=
  go hay.data
where
  go : List Char → Bool
    | [] => charsHavePrefix needle.data []
    | c :: rest => charsHavePrefix needle.data (c :: rest) || go rest

/-- Python's `k in v` on a JSON value: key membership for a dict, substring
for a string, element equality for a list; `none` models the `TypeError`
raised for the remaining types. -/
def pyIn (k : String) : Json → Option Bool
  | Json.obj l => some (dlookup k l).isSome
  | Json.str s => some (strContains k s)
  | Json.arr l => some (l.any (fun j => match j with | Json.str s => s == k | _ => false))
  | _ => none

/-- A tool as materialized by the runtime: its registered name and its
`parameters` JSON schema (a dictionary). -/
structure Tool where
  name : String
  parameters : List (String × Json)

/-- `"org" in tool.parameters.get("properties", {})`. -/
def toolHasOrg (t : Tool) : Option Bool :=
  pyIn "org" ((dlookup "properties" t.parameters).getD (Json.obj []))

/-- `ArgTransformConfig(hide=..., default=...)` as registered for `org`. -/
structure ArgTransformConfig where
  hide : Bool
  default : String
deriving DecidableEq

/-- The arguments of one registered `ToolTransformConfig`. -/
abbrev TransformArgs := List (String × ArgTransformConfig)

/-- The registration loop body over the tool table, in table order. -/
def registerLoop (org : String) : List Tool → Option (List (String × TransformArgs))
  | [] => some []
  | t :: rest =>
      match toolHasOrg t with
      | none => none
      | some b =>
          match registerLoop org rest with
          | none => none
          | some r =>
              if b then some ((t.name, [("org", ⟨true, org⟩)]) :: r) else some r

/-- The whole redaction-registration step: nothing is registered unless
`QUORTEX_ORG` is present and non-empty (Python truthiness of
`if default_org:`). -/
def registerTransforms (default_org : Option String) (tools : List Tool) :
    Option (List (String × TransformArgs)) :=
  match default_org with
  | none => some []
  | some org => if org = "" then some [] else registerLoop org tools

/-- Modelled from the spec: the protocol runtime (an external collaborator,
not part of this repository) applies a registered transformation by
removing every argument configured with `hide=True` from the externally
visible input schema. -/
def visibleProperties (props : List (String × Json)) (cfg : TransformArgs) :
    List (String × Json) :=
  props.filter (fun kv =>
    match dlookup kv.1 cfg with
    | some c => !c.hide
    | none => true)

/-- Modelled from the spec: at invocation time the runtime supplies, for
every hidden argument the caller did not pass, the configured default
value. -/
def applyDefaults (args : List (String × Json)) (cfg : TransformArgs) :
    List (String × Json) :=
  args ++ cfg.filterMap (fun kc =>
    if kc.2.hide && (dlookup kc.1 args).isNone then some (kc.1, Json.str kc.2.default)
    else none)

/-- The registration loop registers exactly the tools whose schema declares
`org`, each with the same single configuration. -/
theorem registerLoop_mem (org : String) (tools : List Tool)
    (regs : List (String × TransformArgs)) (h : registerLoop org tools = some regs) :
    (∀ t ∈ tools, toolHasOrg t = some true →
      (t.name, [("org", (⟨true, org⟩ : ArgTransformConfig))]) ∈ regs) ∧
    (∀ e ∈ regs, e.2 = [("org", (⟨true, org⟩ : ArgTransformConfig))] ∧
      ∃ t ∈ tools, t.name = e.1 ∧ toolHasOrg t = some true) := by
  induction tools generalizing regs with
  | nil =>
    simp only [registerLoop] at h
    cases h
    exact ⟨by simp, by simp⟩
  | cons t rest ih =>
    simp only [registerLoop] at h
    cases hb : toolHasOrg t with
    | none =>
      rw [hb] at h
      exact absurd h (by simp)
    | some b =>
      rw [hb] at h
      cases hr : registerLoop org rest with
      | none =>
        rw [hr] at h
        exact absurd h (by simp)
      | some r =>
        rw [hr] at h
        obtain ⟨ih1, ih2⟩ := ih r hr
        cases b with
        | true =>
          simp only [if_true] at h
          cases h
          constructor
          · intro t' ht' horg
            rcases List.mem_cons.mp ht' with h1 | h1
            · subst h1
              exact List.mem_cons_self _ _
            · exact List.mem_cons_of_mem _ (ih1 t' h1 horg)
          · intro e he
            rcases List.mem_cons.mp he with h1 | h1
            · subst h1
              exact ⟨rfl, t, List.mem_cons_self _ _, rfl, hb⟩
            · obtain ⟨he2, t', ht', hn, ho⟩ := ih2 e h1
              exact ⟨he2, t', List.mem_cons_of_mem _ ht', hn, ho⟩
        | false =>
          simp only [Bool.false_eq_true, if_false] at h
          cases h
          constructor
          · intro t' ht' horg
            rcases List.mem_cons.mp ht' with h1 | h1
            · subst h1
              rw [horg] at hb
              exact absurd hb (by simp)
            · exact ih1 t' h1 horg
          · intro e he
            obtain ⟨he2, t', ht', hn, ho⟩ := ih2 e he
            exact ⟨he2, t', List.mem_cons_of_mem _ ht', hn, ho⟩

theorem dlookup_filter_none {α : Type} (p : String × α → Bool) (k : String)
    (l : List (String × α)) (hp : ∀ v, p (k, v) = false) : dlookup k (l.filter p) = none := by
  induction l with
  | nil => rfl
  | cons hd tl ih =>
    obtain ⟨k', v'⟩ := hd
    by_cases hk : k' = k
    · subst hk
      rw [List.filter_cons, hp v']
      simpa using ih
    · rw [List.filter_cons]
      cases hpv : p (k', v')
      · simpa using ih
      · simp only [if_true]
        rw [dlookup_cons, if_neg hk]
        exact ih

/-- C6: with a configured non-empty default organization, the redactor
registers — for exactly the tools whose declared input schema contains a
property literally named `org` — the one shared transformation
`hide=True, default=<configured value>`; under the runtime's transform
contract this removes `org` from the externally visible schema and
supplies the configured default for any invocation that omitted `org`;
tools without the property get no registration. -/
theorem org_redaction (cfg : String) (hcfg : cfg ≠ "") (tools : List Tool)
    (regs : List (String × TransformArgs))
    (hreg : registerTransforms (some cfg) tools = some regs) :
    (∀ t ∈ tools, toolHasOrg t = some true →
      (t.name, [("org", (⟨true, cfg⟩ : ArgTransformConfig))]) ∈ regs) ∧
    (∀ e ∈ regs, e.2 = [("org", (⟨true, cfg⟩ : ArgTransformConfig))] ∧
      ∃ t ∈ tools, t.name = e.1 ∧ toolHasOrg t = some true) ∧
    (∀ props : List (String × Json),
      dlookup "org" (visibleProperties props [("org", ⟨true, cfg⟩)]) = none) ∧
    (∀ args : List (String × Json), dlookup "org" args = none →
      dlookup "org" (applyDefaults args [("org", ⟨true, cfg⟩)]) = some (Json.str cfg)) := by
  rw [registerTransforms, if_neg hcfg] at hreg
  obtain ⟨h1, h2⟩ := registerLoop_mem cfg tools regs hreg
  refine ⟨h1, h2, ?_, ?_⟩
  · intro props
    refine dlookup_filter_none _ _ props ?_
    intro v
    simp [dlookup]
  · intro args hargs
    rw [applyDefaults, dlookup_append, hargs]
    simp [List.filterMap, hargs, dlookup, Option.orElse]

/-- Witness for C6: one tool declaring `org` and the transformation's
visible-schema and invocation effects, at concrete values. -/
theorem org_redaction_witness :
    ("ingest_inputs_create", [("org", (⟨true, "test-org-uuid"⟩ : ArgTransformConfig))]) ∈
      ([("ingest_inputs_create", [("org", (⟨true, "test-org-uuid"⟩ : ArgTransformConfig))])] :
        List (String × TransformArgs)) ∧
    dlookup "org" (visibleProperties [("org", Json.obj []), ("name", Json.obj [])]
      [("org", ⟨true, "test-org-uuid"⟩)]) = none ∧
    dlookup "org" (applyDefaults [("name", Json.str "x")] [("org", ⟨true, "test-org-uuid"⟩)]) =
      some (Json.str "test-org-uuid") := by
  have h := org_redaction "test-org-uuid" (by decide)
    [⟨"ingest_inputs_create",
      [("properties", Json.obj [("org", Json.obj []), ("name", Json.obj [])])]⟩]
    [("ingest_inputs_create", [("org", ⟨true, "test-org-uuid"⟩)])] rfl
  exact ⟨h.1 ⟨"ingest_inputs_create",
      [("properties", Json.obj [("org", Json.obj []), ("name", Json.obj [])])]⟩
    (by simp) rfl, h.2.2.1 _, h.2.2.2 _ rfl⟩

/-- C10: with no configured default organization — `QUORTEX_ORG` absent or
empty — nothing at all is registered, whatever the tool table contains
(including tools that declare `org`), and with no registered transformation
the runtime contract leaves every schema and invocation unchanged, so
`org` stays externally visible and caller-supplied. -/
theorem org_redaction_disabled (tools : List Tool) :
    registerTransforms none tools = some [] ∧
    registerTransforms (some "") tools = some [] ∧
    (∀ props : List (String × Json), visibleProperties props [] = props) ∧
    (∀ args : List (String × Json), applyDefaults args [] = args) := by
  refine ⟨rfl, rfl, ?_, ?_⟩
  · intro props
    simp [visibleProperties, dlookup]
  · intro args
    simp [applyDefaults, List.filterMap]

end QuortexMCP
